import Mathlib

/-!
Verification of the core logic of `term-filter-main.c` (repository ikle/term).

The file gives a shallow embedding of the pure parts of the program:

* the CSI-stripping state machine of `csi_filter` (the per-byte `switch`
  and the surrounding read loop), modelled as state-passing functions over
  lists of bytes (`Nat` values; the C `char` comparisons `033`, `0133`,
  `0100..0176` only ever match bytes below 0x80, so the unsigned reading
  agrees with the signed one on every byte value 0..255);
* `safe_write`, modelled against an oracle listing the result of each
  underlying `write` call (the `EINTR` retry loop is folded into the
  oracle); memory is a function `Nat → Nat` so that reads past the end of
  the supplied buffer are observable;
* `run`, modelled against an oracle for the pty-related OS calls, recording
  which descriptors the parent control path opens and closes;
* the tail of `main`, modelled against an oracle for `run`, `isatty` and
  `waitpid`, producing the process exit status and the trace of termios
  calls made on standard input.
-/

namespace TermFilter

/-- The filter state of `csi_filter`: `enum state { INIT, ESCAPE, CSI }`. -/
inductive State where
  | INIT
  | ESCAPE
  | CSI
deriving DecidableEq, Repr

open State

/-- One iteration of the per-byte `switch` inside `csi_filter`
(term-filter-main.c lines 61-87): given the current state and the input
byte, return the successor state and the bytes appended to the output
buffer.  Octal `033` is 27 (ESC), `0133` is 91 (the character `[`),
`0100` is 64 and `0176` is 126. -/
def csi_step (s : State) (b : Nat) : State × List Nat :=
  match s with
  | INIT => if b = 27 then (ESCAPE, []) else (INIT, [b])
  | ESCAPE => if b = 91 then (CSI, []) else (INIT, [27, b])
  | CSI => if 64 ≤ b ∧ b ≤ 126 then (INIT, []) else (CSI, [])

/-- The `for` loop of `csi_filter` over one input chunk `ibuf[0..n)`:
thread the state through `csi_step` byte by byte and collect the output
chunk `obuf[0..q)`. -/
def csi_filter_chunk (s : State) (chunk : List Nat) : State × List Nat :=
  match chunk with
  | [] => (s, [])
  | b :: bs =>
    ((csi_filter_chunk (csi_step s b).1 bs).1,
     (csi_step s b).2 ++ (csi_filter_chunk (csi_step s b).1 bs).2)

/-- The read loop of `csi_filter`: process a sequence of input chunks (the
successive `safe_read` results), threading the state across chunks, and
concatenate the output chunks (the successive `safe_write` payloads). -/
def csi_filter (s : State) (chunks : List (List Nat)) : State × List Nat :=
  match chunks with
  | [] => (s, [])
  | c :: cs =>
    ((csi_filter (csi_filter_chunk s c).1 cs).1,
     (csi_filter_chunk s c).2 ++ (csi_filter (csi_filter_chunk s c).1 cs).2)

/-- Processing a concatenation of two byte lists in one chunk is the same
as processing them one after the other with the state threaded through. -/
theorem csi_filter_chunk_append (s : State) (xs ys : List Nat) :
    csi_filter_chunk s (xs ++ ys) =
      ((csi_filter_chunk (csi_filter_chunk s xs).1 ys).1,
       (csi_filter_chunk s xs).2 ++
         (csi_filter_chunk (csi_filter_chunk s xs).1 ys).2) := by
  induction xs generalizing s with
  | nil => simp [csi_filter_chunk]
  | cons b bs ih => simp [csi_filter_chunk, ih, List.append_assoc]

/-- The chunked run of the filter equals the run on the joined input. -/
theorem csi_filter_eq_join (s : State) (chunks : List (List Nat)) :
    csi_filter s chunks = csi_filter_chunk s chunks.flatten := by
  induction chunks generalizing s with
  | nil => simp [csi_filter, csi_filter_chunk]
  | cons c cs ih =>
    simp [csi_filter, List.flatten, csi_filter_chunk_append, ih]

/-- From `INIT`, a chunk free of ESC bytes is passed through unchanged. -/
theorem csi_filter_chunk_no_esc (xs : List Nat) (h : ∀ b ∈ xs, b ≠ 27) :
    csi_filter_chunk INIT xs = (INIT, xs) := by
  induction xs with
  | nil => rfl
  | cons b bs ih =>
    have hb : b ≠ 27 := h b (by simp)
    have hr := ih fun x hx => h x (by simp [hx])
    simp [csi_filter_chunk, csi_step, hb, hr]

/-- In `CSI` state, a run of bytes outside the final-byte range 64..126 is
silently consumed without leaving `CSI`. -/
theorem csi_filter_chunk_consume (ps : List Nat)
    (h : ∀ b ∈ ps, ¬(64 ≤ b ∧ b ≤ 126)) :
    csi_filter_chunk CSI ps = (CSI, []) := by
  induction ps with
  | nil => rfl
  | cons b bs ih =>
    have hb : ¬(64 ≤ b ∧ b ≤ 126) := h b (by simp)
    have hr := ih fun x hx => h x (by simp [hx])
    simp [csi_filter_chunk, csi_step, hb, hr]

/-- Consuming the two bytes `ESC [` from `INIT` emits nothing and moves
the machine to the `CSI` state. -/
theorem csi_filter_chunk_esc_bracket (rest : List Nat) :
    csi_filter_chunk INIT (27 :: 91 :: rest) = csi_filter_chunk CSI rest := by
  simp [csi_filter_chunk, csi_step]

/-- Each `csi_step` emits at most one byte more than it consumes, and the
excess is accounted for by leaving the `ESCAPE` state (where one delayed
ESC byte is pending). -/
theorem csi_step_length (s : State) (b : Nat) :
    (csi_step s b).2.length + (if (csi_step s b).1 = ESCAPE then 1 else 0) ≤
      1 + (if s = ESCAPE then 1 else 0) := by
  cases s <;> simp only [csi_step] <;> split <;> simp

/-- Output-length bound for one chunk: at most the chunk length, plus one
when the chunk is entered in the `ESCAPE` state. -/
theorem csi_filter_chunk_length (s : State) (xs : List Nat) :
    (csi_filter_chunk s xs).2.length ≤
      xs.length + (if s = ESCAPE then 1 else 0) := by
  induction xs generalizing s with
  | nil => simp [csi_filter_chunk]
  | cons b bs ih =>
    have h1 := csi_step_length s b
    have h2 := ih (csi_step s b).1
    simp only [csi_filter_chunk, List.length_append, List.length_cons]
    split_ifs at h1 h2 ⊢ <;> omega

/-- C2: for a span `ESC [ p* f` with parameter bytes in 0x30-0x3F and a
final byte in 0x40-0x7E, embedded between ESC-free context bytes, the
filter drops the whole span, emits the context unchanged and ends in
`INIT`; moreover in the `CSI` state a byte outside both ranges is silently
consumed without leaving `CSI`. -/
theorem claim_C2 (pre ps post : List Nat) (f c : Nat)
    (hpre : ∀ b ∈ pre, b ≠ 27) (hps : ∀ b ∈ ps, 48 ≤ b ∧ b ≤ 63)
    (hf : 64 ≤ f ∧ f ≤ 126) (hpost : ∀ b ∈ post, b ≠ 27)
    (_hc1 : ¬(48 ≤ c ∧ c ≤ 63)) (hc2 : ¬(64 ≤ c ∧ c ≤ 126)) :
    csi_filter_chunk INIT (pre ++ [27, 91] ++ ps ++ [f] ++ post) =
      (INIT, pre ++ post) ∧
    csi_step CSI c = (CSI, []) := by
  have hps' : ∀ b ∈ ps, ¬(64 ≤ b ∧ b ≤ 126) := by
    intro b hb
    have := hps b hb
    omega
  have hseq : csi_filter_chunk INIT ([27, 91] ++ ps ++ [f]) = (INIT, []) := by
    have h1 : [27, 91] ++ ps ++ [f] = 27 :: 91 :: (ps ++ [f]) := by simp
    rw [h1, csi_filter_chunk_esc_bracket]
    rw [csi_filter_chunk_append CSI ps [f], csi_filter_chunk_consume ps hps']
    simp [csi_filter_chunk, csi_step, hf]
  constructor
  · have hsplit : pre ++ [27, 91] ++ ps ++ [f] ++ post =
        pre ++ (([27, 91] ++ ps ++ [f]) ++ post) := by
      simp [List.append_assoc]
    rw [hsplit, csi_filter_chunk_append, csi_filter_chunk_no_esc pre hpre]
    rw [csi_filter_chunk_append, hseq]
    simp [csi_filter_chunk_no_esc post hpost]
  · simp [csi_step, hc2]

/-- Witness for C2 at a concrete input: `"A" ESC "[31m" "B"` filters to
`"AB"`, and a line feed inside a CSI sequence is consumed. -/
theorem claim_C2_witness :
    csi_filter_chunk INIT ([65] ++ [27, 91] ++ [51, 49] ++ [109] ++ [66]) =
      (INIT, [65, 66]) ∧
    csi_step CSI 10 = (CSI, []) :=
  claim_C2 [65] [51, 49] [66] 109 10 (by decide) (by decide) (by decide)
    (by decide) (by decide) (by decide)

/-- C3: the filter is chunking-invariant — processing any list of chunks
while threading the state equals processing the joined input in one chunk;
in particular `"AB" + ESC "[3"` followed by `"1mCD"` yields `"ABCD"`. -/
theorem claim_C3 :
    (∀ (s : State) (chunks : List (List Nat)),
      csi_filter s chunks = csi_filter_chunk s chunks.flatten) ∧
    csi_filter INIT [[65, 66, 27, 91, 51], [49, 109, 67, 68]] =
      (INIT, [65, 66, 67, 68]) :=
  ⟨csi_filter_eq_join, by decide⟩

/-- C4: an input with no ESC byte passes through unchanged, for every way
of splitting it into chunks. -/
theorem claim_C4 (chunks : List (List Nat))
    (h : ∀ b ∈ chunks.flatten, b ≠ 27) :
    csi_filter INIT chunks = (INIT, chunks.flatten) := by
  rw [csi_filter_eq_join]
  exact csi_filter_chunk_no_esc chunks.flatten h

/-- Witness for C4: the chunks `"A"` and `"BC"` pass through as `"ABC"`. -/
theorem claim_C4_witness :
    csi_filter INIT [[65], [66, 67]] = (INIT, [65, 66, 67]) :=
  claim_C4 [[65], [66, 67]] (by decide)

/-- C5: an ESC followed by a byte other than `[` is emitted as the pair
ESC, byte, returning to `INIT` — stated for the `ESCAPE` state directly,
for the two bytes in one chunk, for the two bytes split across two chunks,
and for the scenario `"A" ESC "Z"`. -/
theorem claim_C5 (b : Nat) (hb : b ≠ 91) :
    csi_step ESCAPE b = (INIT, [27, b]) ∧
    csi_filter_chunk INIT [27, b] = (INIT, [27, b]) ∧
    csi_filter INIT [[27], [b]] = (INIT, [27, b]) ∧
    csi_filter_chunk INIT [65, 27, 90] = (INIT, [65, 27, 90]) := by
  refine ⟨by simp [csi_step, hb], ?_, ?_, by decide⟩
  · simp [csi_filter_chunk, csi_step, hb]
  · simp [csi_filter, csi_filter_chunk, csi_step, hb]

/-- Witness for C5 at `b = 90` (the character `Z`). -/
theorem claim_C5_witness :
    csi_step ESCAPE 90 = (INIT, [27, 90]) ∧
    csi_filter_chunk INIT [27, 90] = (INIT, [27, 90]) ∧
    csi_filter INIT [[27], [90]] = (INIT, [27, 90]) ∧
    csi_filter_chunk INIT [65, 27, 90] = (INIT, [65, 27, 90]) :=
  claim_C5 90 (by decide)

/-- C6: a stream ending just after ESC leaves the state `ESCAPE`, one
ending inside `ESC [ p*` leaves the state `CSI` (neither is `INIT`), and
completing the sequence in a later chunk drops it entirely, exactly as the
unsplit sequence is dropped. -/
theorem claim_C6 (ps1 ps2 : List Nat) (f : Nat)
    (h1 : ∀ b ∈ ps1, 48 ≤ b ∧ b ≤ 63) (h2 : ∀ b ∈ ps2, 48 ≤ b ∧ b ≤ 63)
    (hf : 64 ≤ f ∧ f ≤ 126) :
    (csi_filter_chunk INIT [27]).1 = ESCAPE ∧
    (csi_filter_chunk INIT (27 :: 91 :: ps1)).1 = CSI ∧
    csi_filter INIT [[27], 91 :: (ps1 ++ [f])] = (INIT, []) ∧
    csi_filter INIT [27 :: 91 :: ps1, ps2 ++ [f]] = (INIT, []) ∧
    csi_filter INIT [27 :: 91 :: ps1, ps2 ++ [f]] =
      csi_filter_chunk INIT (27 :: 91 :: ((ps1 ++ ps2) ++ [f])) := by
  have hp1 : ∀ b ∈ ps1, ¬(64 ≤ b ∧ b ≤ 126) := by
    intro b hb
    have := h1 b hb
    omega
  have hp12 : ∀ b ∈ ps1 ++ ps2, ¬(64 ≤ b ∧ b ≤ 126) := by
    intro b hb
    rcases List.mem_append.mp hb with h | h
    · have := h1 b h
      omega
    · have := h2 b h
      omega
  have key : ∀ qs : List Nat, (∀ b ∈ qs, ¬(64 ≤ b ∧ b ≤ 126)) →
      csi_filter_chunk INIT (27 :: 91 :: (qs ++ [f])) = (INIT, []) := by
    intro qs hqs
    rw [csi_filter_chunk_esc_bracket]
    rw [csi_filter_chunk_append CSI qs [f], csi_filter_chunk_consume qs hqs]
    simp [csi_filter_chunk, csi_step, hf]
  have hstate : (csi_filter_chunk INIT (27 :: 91 :: ps1)).1 = CSI := by
    rw [csi_filter_chunk_esc_bracket, csi_filter_chunk_consume ps1 hp1]
  refine ⟨by decide, hstate, ?_, ?_, ?_⟩
  · rw [csi_filter_eq_join]
    have : ([[27], 91 :: (ps1 ++ [f])] : List (List Nat)).flatten =
        27 :: 91 :: (ps1 ++ [f]) := by simp
    rw [this]
    exact key ps1 hp1
  · rw [csi_filter_eq_join]
    have : ([27 :: 91 :: ps1, ps2 ++ [f]] : List (List Nat)).flatten =
        27 :: 91 :: ((ps1 ++ ps2) ++ [f]) := by simp
    rw [this]
    exact key (ps1 ++ ps2) hp12
  · rw [csi_filter_eq_join]
    have : ([27 :: 91 :: ps1, ps2 ++ [f]] : List (List Nat)).flatten =
        27 :: 91 :: ((ps1 ++ ps2) ++ [f]) := by simp
    rw [this]

/-- Witness for C6 at `ESC [3` + `1m` against the unsplit `ESC [31m`. -/
theorem claim_C6_witness :
    (csi_filter_chunk INIT [27]).1 = ESCAPE ∧
    (csi_filter_chunk INIT (27 :: 91 :: [51])).1 = CSI ∧
    csi_filter INIT [[27], 91 :: ([51] ++ [109])] = (INIT, []) ∧
    csi_filter INIT [27 :: 91 :: [51], [49] ++ [109]] = (INIT, []) ∧
    csi_filter INIT [27 :: 91 :: [51], [49] ++ [109]] =
      csi_filter_chunk INIT (27 :: 91 :: (([51] ++ [49]) ++ [109])) :=
  claim_C6 [51] [49] 109 (by decide) (by decide) (by decide)

/-- C10: the output for one chunk of `n` bytes is at most `n + 1` bytes,
and it can reach `n + 1` only when the chunk is entered in the `ESCAPE`
state (the bound without the extra byte holds for the other states); this
is why `obuf` of `BUFSIZE` bytes suffices for `ibuf` of `BUFSIZE - 1`. -/
theorem claim_C10 :
    ∀ (s : State) (xs : List Nat),
      (csi_filter_chunk s xs).2.length ≤
        xs.length + (if s = ESCAPE then 1 else 0) ∧
      (csi_filter_chunk s xs).2.length ≤ xs.length + 1 := by
  intro s xs
  have h := csi_filter_chunk_length s xs
  constructor
  · exact h
  · split_ifs at h <;> omega

/-- Loop body of `safe_write` (term-filter-main.c lines 31-36), modelled
against an oracle `ws` listing the result of each underlying `write` call
after its `EINTR` retries: a negative entry is a hard error, a
non-negative entry is the number of bytes the kernel completed.  `mem` is
the process memory as seen from the start of the buffer, so `mem i` for
`i ≥ count` is a byte past the end of the buffer.  The state is the
current offset `p` (as `p - buf`) and the remaining `avail : Int`
(`ssize_t`).  Note that, exactly as in the source, every call requests
`count` bytes starting at the current offset `p` — not the `avail` bytes
that remain.  The result records the returned value, the list of
`(offset, requested length)` submissions made, and the bytes actually
transferred to the descriptor; `none` means the oracle ran out of entries
while the loop still wanted to call `write`. -/
def safe_write_go (mem : Nat → Nat) (count : Nat) :
    List Int → Nat → Int → Option (Int × List (Nat × Nat) × List Nat)
  | ws, p, avail =>
    if avail ≤ 0 then
      some ((count : Int), [], [])
    else
      match ws with
      | [] => none
      | w :: rest =>
        if w < 0 then
          some (w, [(p, count)], [])
        else
          match safe_write_go mem count rest (p + w.toNat) (avail - w) with
          | none => none
          | some (ret, reqs, outs) =>
            some (ret, (p, count) :: reqs,
              ((List.range w.toNat).map fun i => mem (p + i)) ++ outs)

/-- The function `safe_write`: start the loop at offset 0 with
`avail = count`. -/
def safe_write (mem : Nat → Nat) (count : Nat) (ws : List Int) :
    Option (Int × List (Nat × Nat) × List Nat) :=
  safe_write_go mem count ws 0 (count : Int)

/-- Evaluation of `safe_write` at the claim C1 failing input.  The buffer
holds 2 bytes (`mem 0` and `mem 1`; here `mem = fun i => i`, so the byte
at offset `i` is `i`); the first underlying `write` completes 1 byte of
its requested 2, the second completes its full request.  Because the code
resubmits with length `count = 2` instead of the remaining `avail = 1`,
the second submission is `(offset 1, length 2)`, and the bytes transferred
are `[0, 1, 2]` — three bytes for a two-byte buffer, including the
out-of-bounds byte `mem 2` — while `safe_write` still returns `count = 2`.
The claim's "the remaining unwritten bytes (and only those) are
resubmitted" therefore fails on the code. -/
theorem claim_C1_bug :
    safe_write (fun i => i) 2 [1, 2] =
      some (2, [(0, 2), (1, 2)], [0, 1, 2]) := by
  decide

/-- Oracle for the OS calls made by `run` (term-filter-main.c lines
94-135), in program order: `posix_openpt` (the master descriptor, or
failure), `grantpt`, `unlockpt`, `ptsname` (success of each), `open` of
the slave device (the slave descriptor, or failure) and `fork` (the child
process id as seen by the parent, or failure). -/
structure PtyCalls where
  openpt : Option Nat
  grant : Bool
  unlock : Bool
  ptsname : Bool
  openSlave : Option Nat
  forkRes : Option Nat
deriving DecidableEq, Repr

/-- Outcome of `run` on the parent control path: `result` is
`some (master, child)` on success and `none` when the C function returns a
negative value; `opened` lists the descriptors `run` opened, in order, and
`closed` the descriptors it closed before returning, in order. -/
structure RunOutcome where
  result : Option (Nat × Nat)
  opened : List Nat
  closed : List Nat
deriving DecidableEq, Repr

/-- The function `run`, following the source control flow: `posix_openpt`
failure returns at once; failure of `grantpt`, `unlockpt`, `ptsname` or
the slave `open` jumps to `no_slave` which closes the master; `fork`
failure jumps to `no_fork` which closes the slave and then the master; in
the parent branch of a successful fork the slave is closed and the master
returned together with the child id. -/
def run (os : PtyCalls) : RunOutcome :=
  match os.openpt with
  | none => ⟨none, [], []⟩
  | some master =>
    if os.grant ∧ os.unlock ∧ os.ptsname then
      match os.openSlave with
      | none => ⟨none, [master], [master]⟩
      | some slave =>
        match os.forkRes with
        | none => ⟨none, [master, slave], [slave, master]⟩
        | some child => ⟨some (master, child), [master, slave], [slave]⟩
    else ⟨none, [master], [master]⟩

/-- Session establishment fails when any of the pty allocation,
grant/unlock, slave name resolution, slave open or fork calls fails. -/
def sessionFails (os : PtyCalls) : Prop :=
  os.openpt = none ∨ os.grant = false ∨ os.unlock = false ∨
    os.ptsname = false ∨ os.openSlave = none ∨ os.forkRes = none

instance (os : PtyCalls) : Decidable (sessionFails os) := by
  unfold sessionFails
  infer_instance

/-- C8: on every establishment failure `run` reports failure (the C
function returns a negative value, modelled as `result = none`) and closes
exactly the descriptors it had opened up to that point, in reverse order
of opening, leaving no partial session. -/
theorem claim_C8 (os : PtyCalls) (h : sessionFails os) :
    (run os).result = none ∧ (run os).closed.reverse = (run os).opened := by
  obtain ⟨openpt, grant, unlock, ptsname, openSlave, forkRes⟩ := os
  rcases openpt with _ | master
  · simp [run]
  rcases grant
  · simp [run]
  rcases unlock
  · simp [run]
  rcases ptsname
  · simp [run]
  rcases openSlave with _ | slave
  · simp [run]
  rcases forkRes with _ | child
  · simp [run]
  · exact absurd h (by simp [sessionFails])

/-- Witness for C8: allocation, grant, unlock, name resolution and slave
open succeed, then `fork` fails; both the slave and the master are closed
and `run` fails. -/
theorem claim_C8_witness :
    (run ⟨some 3, true, true, true, some 4, none⟩).result = none ∧
    (run ⟨some 3, true, true, true, some 4, none⟩).closed.reverse =
      (run ⟨some 3, true, true, true, some 4, none⟩).opened :=
  claim_C8 ⟨some 3, true, true, true, some 4, none⟩ (by decide)

/-- The termios calls `main` can make on standard input: `tcgetattr`
capturing the original attributes, `tcsetattr` entering raw mode, and
`tcsetattr` restoring the captured attributes. -/
inductive TermCall where
  | tcget
  | tcsetRaw
  | tcsetRest
deriving DecidableEq, Repr

/-- Oracle for the calls made by `main` (term-filter-main.c lines
153-201): the result of `run` (master and child, or failure), whether
`isatty (0)` holds, and the result of `waitpid` — `none` when `waitpid`
does not return the child, otherwise the raw wait status word. -/
structure MainCalls where
  runRes : Option (Nat × Nat)
  tty : Bool
  waitRes : Option Nat
deriving DecidableEq, Repr

/-- The macro `WIFEXITED`: the low seven bits of the status are zero. -/
def wifexited (st : Nat) : Bool := st % 128 = 0

/-- The macro `WEXITSTATUS`: bits 8..15 of the status. -/
def wexitstatus (st : Nat) : Nat := st / 256 % 256

/-- The tail of `main`, following the source: `status` starts at 1; fewer
than two arguments prints usage and returns 1; a failed `run` returns 1;
otherwise, when standard input is a terminal its attributes are captured
and raw mode entered, the child is awaited (`status` keeps its initial 1
when `waitpid` fails, else becomes the exit value on normal termination
and 1 otherwise), and when standard input is a terminal the captured
attributes are restored before returning `status`.  The result is the
process exit code together with the trace of termios calls. -/
def main (argc : Nat) (os : MainCalls) : Nat × List TermCall :=
  let status := 1
  if argc < 2 then (status, [])
  else
    match os.runRes with
    | none => (1, [])
    | some _ =>
      let enter := if os.tty then [TermCall.tcget, TermCall.tcsetRaw] else []
      let status :=
        match os.waitRes with
        | none => status
        | some st => if wifexited st then wexitstatus st else 1
      let leave := if os.tty then [TermCall.tcsetRest] else []
      (status, enter ++ leave)

/-- C7: the exit code is 1 when no target command is given or session
establishment fails; otherwise it is the child's exit value when the child
exited normally, and 1 when it terminated abnormally or `waitpid` itself
failed. -/
theorem claim_C7 (argc : Nat) (os : MainCalls) :
    (main argc os).1 =
      if argc < 2 then 1
      else if os.runRes = none then 1
      else
        match os.waitRes with
        | none => 1
        | some st => if wifexited st then wexitstatus st else 1 := by
  unfold main
  rcases os with ⟨runRes, tty, waitRes⟩
  rcases runRes with _ | m
  · simp
  · rcases waitRes with _ | st <;> split <;> simp

/-- C9: the attributes of standard input are touched only when it is a
terminal and the session is reached; in that case the trace is exactly one
capture, then one switch to raw mode, then one restoration — whatever
`waitpid` returns; when standard input is not a terminal the trace is
empty on every path. -/
theorem claim_C9 (argc : Nat) (os : MainCalls) :
    (main argc os).2 =
      if 2 ≤ argc ∧ os.runRes ≠ none ∧ os.tty = true then
        [TermCall.tcget, TermCall.tcsetRaw, TermCall.tcsetRest]
      else [] := by
  rcases os with ⟨runRes, tty, waitRes⟩
  by_cases h : 2 ≤ argc
  · have h1 : ¬argc < 2 := Nat.not_lt.mpr h
    rcases runRes with _ | m
    · simp [main, h1]
    · rcases tty <;> rcases waitRes with _ | st <;> simp [main, h1, h]
  · have h1 : argc < 2 := Nat.not_le.mp h
    simp [main, h1, h]

end TermFilter
